import Mathlib

/-!
Shallow embedding of the interactive 3D rendering demo (src/源.cpp): the
free-fly camera model (Euler-angle basis update, keyboard/mouse/scroll
processing, reset), the procedural UV-sphere vertex/index generation, the
per-frame light-orbit animation and the two lit fragment shaders.
GLM/GLSL float scalars are modelled as real numbers; `glm::vec3` becomes
`Vec3`, `vec4` becomes `Vec4`.
-/

set_option maxHeartbeats 1600000

noncomputable section

/-- Real 3-vector modelling `glm::vec3` (float components modelled as reals). -/
@[ext]
structure Vec3 where
  x : ℝ
  y : ℝ
  z : ℝ

/-- Real 4-vector modelling GLSL `vec4` (the fragment shader output). -/
@[ext]
structure Vec4 where
  x : ℝ
  y : ℝ
  z : ℝ
  w : ℝ

/-- Componentwise vector addition, `glm` vector `+`. -/
instance : Add Vec3 := ⟨fun a b => ⟨a.x + b.x, a.y + b.y, a.z + b.z⟩⟩

/-- Componentwise vector subtraction, `glm` vector `-`. -/
instance : Sub Vec3 := ⟨fun a b => ⟨a.x - b.x, a.y - b.y, a.z - b.z⟩⟩

/-- Componentwise vector product, GLSL `vec3 * vec3`. -/
instance : Mul Vec3 := ⟨fun a b => ⟨a.x * b.x, a.y * b.y, a.z * b.z⟩⟩

/-- Scalar-vector product, `glm` `float * vec3` (and `vec3 * float`). -/
instance : SMul ℝ Vec3 := ⟨fun r v => ⟨r * v.x, r * v.y, r * v.z⟩⟩

/-- `glm::dot` on 3-vectors. -/
def dot3 (a b : Vec3) : ℝ := a.x * b.x + a.y * b.y + a.z * b.z

/-- `glm::cross` on 3-vectors. -/
def cross3 (a b : Vec3) : Vec3 :=
  ⟨a.y * b.z - a.z * b.y, a.z * b.x - a.x * b.z, a.x * b.y - a.y * b.x⟩

/-- `glm::length` on 3-vectors. -/
def norm3 (v : Vec3) : ℝ := Real.sqrt (dot3 v v)

/-- `glm::normalize` on 3-vectors: `v / length(v)`. -/
def normalize3 (v : Vec3) : Vec3 := (1 / norm3 v) • v

/-- `glm::radians`: degrees to radians. -/
def radians (degrees : ℝ) : ℝ := degrees * (Real.pi / 180)

/-- The `Camera_Movement` enum of the source. -/
inductive Camera_Movement where
  | FORWARD
  | BACKWARD
  | LEFT
  | RIGHT

/-- The `Camera` class of the source: position, derived basis vectors,
world-up reference, Euler angles (degrees) and the tunable scalars. -/
structure Camera where
  Position : Vec3
  Front : Vec3
  Up : Vec3
  Right : Vec3
  WorldUp : Vec3
  Yaw : ℝ
  Pitch : ℝ
  MovementSpeed : ℝ
  MouseSensitivity : ℝ
  Zoom : ℝ

/-- The local `front` vector computed inside `Camera::updateCameraVectors`:
`front.x = cos(radians(Yaw)) * cos(radians(Pitch))`,
`front.y = sin(radians(Pitch))`,
`front.z = sin(radians(Yaw)) * cos(radians(Pitch))`. -/
def frontRaw (yaw pitch : ℝ) : Vec3 :=
  ⟨Real.cos (radians yaw) * Real.cos (radians pitch),
   Real.sin (radians pitch),
   Real.sin (radians yaw) * Real.cos (radians pitch)⟩

/-- `Front = glm::normalize(front)` in `Camera::updateCameraVectors`. -/
def camFront (yaw pitch : ℝ) : Vec3 := normalize3 (frontRaw yaw pitch)

/-- `Right = glm::normalize(glm::cross(Front, WorldUp))` in
`Camera::updateCameraVectors` (using the just-updated `Front`). -/
def camRight (yaw pitch : ℝ) (worldUp : Vec3) : Vec3 :=
  normalize3 (cross3 (camFront yaw pitch) worldUp)

/-- `Up = glm::normalize(glm::cross(Right, Front))` in
`Camera::updateCameraVectors` (using the just-updated `Right` and `Front`). -/
def camUp (yaw pitch : ℝ) (worldUp : Vec3) : Vec3 :=
  normalize3 (cross3 (camRight yaw pitch worldUp) (camFront yaw pitch))

/-- `Camera::updateCameraVectors`: recomputes `Front`, then `Right`, then `Up`
from the current Euler angles and `WorldUp`; all other fields unchanged. -/
def Camera.updateCameraVectors (c : Camera) : Camera :=
  { c with
    Front := camFront c.Yaw c.Pitch,
    Right := camRight c.Yaw c.Pitch c.WorldUp,
    Up := camUp c.Yaw c.Pitch c.WorldUp }

/-- The `Camera` constructor with the source's default values
(`YAW = -90`, `PITCH = 0`, `SPEED = 2.5`, `SENSITIVITY = 0.1`, `ZOOM = 45`,
up `(0,1,0)`); it ends by calling `updateCameraVectors`. -/
def Camera.init (position : Vec3) : Camera :=
  Camera.updateCameraVectors
    { Position := position, Front := ⟨0, 0, -1⟩, Up := ⟨0, 0, 0⟩,
      Right := ⟨0, 0, 0⟩, WorldUp := ⟨0, 1, 0⟩, Yaw := -90, Pitch := 0,
      MovementSpeed := 2.5, MouseSensitivity := 0.1, Zoom := 45 }

/-- `Camera::ProcessKeyboard`: translate `Position` along `Front` or `Right`
by `velocity = MovementSpeed * deltaTime` (the four `if`s of the source are
mutually exclusive on the enum, rendered as a `match`). -/
def Camera.ProcessKeyboard (c : Camera) (direction : Camera_Movement)
    (deltaTime : ℝ) : Camera :=
  match direction with
  | .FORWARD => { c with Position := c.Position + (c.MovementSpeed * deltaTime) • c.Front }
  | .BACKWARD => { c with Position := c.Position - (c.MovementSpeed * deltaTime) • c.Front }
  | .LEFT => { c with Position := c.Position - (c.MovementSpeed * deltaTime) • c.Right }
  | .RIGHT => { c with Position := c.Position + (c.MovementSpeed * deltaTime) • c.Right }

/-- The two sequential clamping `if`s of `Camera::ProcessMouseMovement`:
`if (Pitch > 89) Pitch = 89; if (Pitch < -89) Pitch = -89;`. -/
def clampPitch (p : ℝ) : ℝ :=
  if (if p > 89 then 89 else p) < -89 then -89 else (if p > 89 then 89 else p)

/-- `Camera::ProcessMouseMovement`: scale the offsets by `MouseSensitivity`,
accumulate into `Yaw`/`Pitch`, clamp `Pitch` when `constrainPitch`, then
call `updateCameraVectors`. -/
def Camera.ProcessMouseMovement (c : Camera) (xoffset yoffset : ℝ)
    (constrainPitch : Bool) : Camera :=
  Camera.updateCameraVectors
    { c with
      Yaw := c.Yaw + xoffset * c.MouseSensitivity,
      Pitch :=
        if constrainPitch then clampPitch (c.Pitch + yoffset * c.MouseSensitivity)
        else c.Pitch + yoffset * c.MouseSensitivity }

/-- `Camera::ProcessMouseScroll`: `Zoom -= yoffset`, then the two sequential
clamping `if`s `if (Zoom < 1) Zoom = 1; if (Zoom > 45) Zoom = 45;`. -/
def Camera.ProcessMouseScroll (c : Camera) (yoffset : ℝ) : Camera :=
  { c with
    Zoom :=
      if (if c.Zoom - yoffset < 1 then 1 else c.Zoom - yoffset) > 45 then 45
      else (if c.Zoom - yoffset < 1 then 1 else c.Zoom - yoffset) }

/-- `Camera::Set`: set `Position` to `vec3(po.x, po.y, po.z)`, reset
`Yaw := -90`, `Pitch := 0`, then call `updateCameraVectors`. -/
def Camera.Set (c : Camera) (po : Vec3) : Camera :=
  Camera.updateCameraVectors
    { c with Position := ⟨po.x, po.y, po.z⟩, Yaw := -90, Pitch := 0 }

/-- A finite sequence of mouse-look calls (each with `constrainPitch = true`,
as `mouse_callback` always calls with the default), applied left to right. -/
def lookSeq (c : Camera) (ms : List (ℝ × ℝ)) : Camera :=
  ms.foldl (fun a m => Camera.ProcessMouseMovement a m.1 m.2 true) c

/-- A finite sequence of scroll-wheel calls applied left to right
(`scroll_callback` forwards each `yoffset` to `ProcessMouseScroll`). -/
def scrollSeq (c : Camera) (ys : List ℝ) : Camera :=
  ys.foldl Camera.ProcessMouseScroll c

/-- The sphere vertex position computed in the vertex-generation loop of
`main` for grid cell `(y, x)`:
`xPos = cos(xSegment * 2π) * sin(ySegment * π)`, `yPos = cos(ySegment * π)`,
`zPos = sin(xSegment * 2π) * sin(ySegment * π)` with
`xSegment = x / X_SEGMENTS`, `ySegment = y / Y_SEGMENTS`.  The float
constant `PI` of the source is modelled as the real `π`. -/
def spherePoint (Ysegs Xsegs y x : ℕ) : Vec3 :=
  ⟨Real.cos ((x : ℝ) / (Xsegs : ℝ) * 2 * Real.pi) *
     Real.sin ((y : ℝ) / (Ysegs : ℝ) * Real.pi),
   Real.cos ((y : ℝ) / (Ysegs : ℝ) * Real.pi),
   Real.sin ((x : ℝ) / (Xsegs : ℝ) * 2 * Real.pi) *
     Real.sin ((y : ℝ) / (Ysegs : ℝ) * Real.pi)⟩

/-- `sphereVertices` of `main`, grouped per vertex: the outer loop runs
`y = 0 .. Y_SEGMENTS`, the inner loop `x = 0 .. X_SEGMENTS`, and each
iteration pushes the one `(xPos, yPos, zPos)` triple of `spherePoint`. -/
def sphereVertices (Ysegs Xsegs : ℕ) : List Vec3 :=
  (List.range (Ysegs + 1)).flatMap fun y =>
    (List.range (Xsegs + 1)).map fun x => spherePoint Ysegs Xsegs y x

/-- The six index entries pushed for grid quad `(i, j)` in the
index-generation loop of `main` (two triangles per quad). -/
def quadIndices (Xsegs i j : ℕ) : List ℕ :=
  [i * (Xsegs + 1) + j,
   (i + 1) * (Xsegs + 1) + j,
   (i + 1) * (Xsegs + 1) + j + 1,
   i * (Xsegs + 1) + j,
   (i + 1) * (Xsegs + 1) + j + 1,
   i * (Xsegs + 1) + j + 1]

/-- `sphereIndices` of `main`: outer loop `i = 0 .. Y_SEGMENTS - 1`, inner
loop `j = 0 .. X_SEGMENTS - 1`, six entries per quad.  The source stores
`int` values; all of them are nonnegative and far below `2^31`, so they are
modelled as naturals. -/
def sphereIndices (Ysegs Xsegs : ℕ) : List ℕ :=
  (List.range Ysegs).flatMap fun i =>
    (List.range Xsegs).flatMap fun j => quadIndices Xsegs i j

/-- The per-frame light position written in the render loop:
`lightPos.x = 5 * cos(t)`, `lightPos.z = 5 * sin(t)`,
`lightPos.y = cos(t) * 2` (all three components overwritten each frame). -/
def lightPosAt (currentFrame : ℝ) : Vec3 :=
  ⟨5 * Real.cos currentFrame, Real.cos currentFrame * 2, 5 * Real.sin currentFrame⟩

/-- The `main` body of the `f_basic_lighting` fragment shader (uniform object
color, `ambientStrength = 0.15`), transcribed line by line; it is a pure
function of its per-fragment inputs. -/
def f_basic_lighting (Normal FragPos lightPos lightColor objectColor : Vec3) : Vec4 :=
  let ambientStrength : ℝ := 0.15
  let ambient := ambientStrength • lightColor
  let norm := normalize3 Normal
  let lightDir := normalize3 (lightPos - FragPos)
  let diff := max (dot3 norm lightDir) 0
  let diffuse := diff • lightColor
  let result := (ambient + diffuse) * objectColor
  ⟨result.x, result.y, result.z, 1⟩

/-- The `main` body of the `f_humor_drill` fragment shader (per-vertex object
color arriving as the `objectColor` varying, `ambientStrength = 0.2`),
transcribed line by line; it is a pure function of its per-fragment inputs. -/
def f_humor_drill (Normal FragPos lightPos lightColor objectColor : Vec3) : Vec4 :=
  let ambientStrength : ℝ := 0.2
  let ambient := ambientStrength • lightColor
  let norm := normalize3 Normal
  let lightDir := normalize3 (lightPos - FragPos)
  let diff := max (dot3 norm lightDir) 0
  let diffuse := diff • lightColor
  let result := (ambient + diffuse) * objectColor
  ⟨result.x, result.y, result.z, 1⟩

/-- Spec-side twin of the fragment shading, written from the spec's words
(§4.3): `ambient = ambientStrength × lightColor`;
`diffuse = max(dot(normalize(normal), normalize(lightDir)), 0) × lightColor`
with `lightDir = lightPos − fragPos`;
`output = (ambient + diffuse) × objectColor, alpha = 1`. -/
def phongSpecFrag (ambientStrength : ℝ)
    (Normal FragPos lightPos lightColor objectColor : Vec3) : Vec4 :=
  ⟨(((ambientStrength • lightColor) +
      (max (dot3 (normalize3 Normal) (normalize3 (lightPos - FragPos))) 0 • lightColor)) *
     objectColor).x,
   (((ambientStrength • lightColor) +
      (max (dot3 (normalize3 Normal) (normalize3 (lightPos - FragPos))) 0 • lightColor)) *
     objectColor).y,
   (((ambientStrength • lightColor) +
      (max (dot3 (normalize3 Normal) (normalize3 (lightPos - FragPos))) 0 • lightColor)) *
     objectColor).z,
   1⟩

/-- The orthonormal right-handed basis property of a camera state: the three
derived vectors are pairwise orthogonal, each of unit length, and satisfy
the right-hand-rule cross-product relations
`Right × Front = Up`, `Front × Up = Right`, `Up × Right = Front`. -/
def orthonormalRH (c : Camera) : Prop :=
  dot3 c.Front c.Right = 0 ∧ dot3 c.Front c.Up = 0 ∧ dot3 c.Right c.Up = 0 ∧
  norm3 c.Front = 1 ∧ norm3 c.Right = 1 ∧ norm3 c.Up = 1 ∧
  cross3 c.Right c.Front = c.Up ∧ cross3 c.Front c.Up = c.Right ∧
  cross3 c.Up c.Right = c.Front

/-! Componentwise lemmas for the vector operations. -/

@[simp] theorem vec3_add_x (a b : Vec3) : (a + b).x = a.x + b.x := rfl

@[simp] theorem vec3_add_y (a b : Vec3) : (a + b).y = a.y + b.y := rfl

@[simp] theorem vec3_add_z (a b : Vec3) : (a + b).z = a.z + b.z := rfl

@[simp] theorem vec3_sub_x (a b : Vec3) : (a - b).x = a.x - b.x := rfl

@[simp] theorem vec3_sub_y (a b : Vec3) : (a - b).y = a.y - b.y := rfl

@[simp] theorem vec3_sub_z (a b : Vec3) : (a - b).z = a.z - b.z := rfl

@[simp] theorem vec3_mul_x (a b : Vec3) : (a * b).x = a.x * b.x := rfl

@[simp] theorem vec3_mul_y (a b : Vec3) : (a * b).y = a.y * b.y := rfl

@[simp] theorem vec3_mul_z (a b : Vec3) : (a * b).z = a.z * b.z := rfl

@[simp] theorem vec3_smul_x (r : ℝ) (v : Vec3) : (r • v).x = r * v.x := rfl

@[simp] theorem vec3_smul_y (r : ℝ) (v : Vec3) : (r • v).y = r * v.y := rfl

@[simp] theorem vec3_smul_z (r : ℝ) (v : Vec3) : (r • v).z = r * v.z := rfl

theorem one_smul_vec3 (v : Vec3) : (1 : ℝ) • v = v := by
  ext <;> simp

/-! Norm and normalization lemmas. -/

theorem norm3_eq_one {v : Vec3} (h : dot3 v v = 1) : norm3 v = 1 := by
  rw [norm3, h, Real.sqrt_one]

theorem normalize3_of_unit {v : Vec3} (h : dot3 v v = 1) : normalize3 v = v := by
  rw [normalize3, norm3_eq_one h]
  norm_num [one_smul_vec3]

/-! Closed forms for the camera basis vectors. -/

theorem frontRaw_unit (yaw pitch : ℝ) :
    dot3 (frontRaw yaw pitch) (frontRaw yaw pitch) = 1 := by
  simp only [frontRaw, dot3]
  linear_combination (Real.cos (radians pitch)) ^ 2 * Real.sin_sq_add_cos_sq (radians yaw) +
    Real.sin_sq_add_cos_sq (radians pitch)

theorem camFront_eq (yaw pitch : ℝ) : camFront yaw pitch = frontRaw yaw pitch :=
  normalize3_of_unit (frontRaw_unit yaw pitch)

theorem cos_radians_pos {p : ℝ} (h1 : -89 ≤ p) (h2 : p ≤ 89) :
    0 < Real.cos (radians p) := by
  have hπ := Real.pi_pos
  have e1 : (0 : ℝ) ≤ (p + 89) * Real.pi := mul_nonneg (by linarith) hπ.le
  have e2 : (0 : ℝ) ≤ (89 - p) * Real.pi := mul_nonneg (by linarith) hπ.le
  apply Real.cos_pos_of_mem_Ioo
  refine ⟨?_, ?_⟩ <;> · simp only [radians]; nlinarith

theorem camRight_eq (yaw pitch : ℝ) (h : 0 < Real.cos (radians pitch)) :
    camRight yaw pitch ⟨0, 1, 0⟩ =
      ⟨-Real.sin (radians yaw), 0, Real.cos (radians yaw)⟩ := by
  have hcr : cross3 (camFront yaw pitch) ⟨0, 1, 0⟩ =
      ⟨-(Real.sin (radians yaw) * Real.cos (radians pitch)), 0,
        Real.cos (radians yaw) * Real.cos (radians pitch)⟩ := by
    rw [camFront_eq]
    ext <;> simp [cross3, frontRaw]
  rw [camRight, hcr]
  have hdot : dot3
      (⟨-(Real.sin (radians yaw) * Real.cos (radians pitch)), 0,
         Real.cos (radians yaw) * Real.cos (radians pitch)⟩ : Vec3)
      ⟨-(Real.sin (radians yaw) * Real.cos (radians pitch)), 0,
        Real.cos (radians yaw) * Real.cos (radians pitch)⟩ =
      Real.cos (radians pitch) ^ 2 := by
    simp only [dot3]
    linear_combination (Real.cos (radians pitch)) ^ 2 * Real.sin_sq_add_cos_sq (radians yaw)
  rw [normalize3, norm3, hdot, Real.sqrt_sq h.le]
  ext <;> field_simp

theorem camUp_eq (yaw pitch : ℝ) (h : 0 < Real.cos (radians pitch)) :
    camUp yaw pitch ⟨0, 1, 0⟩ =
      ⟨-(Real.cos (radians yaw) * Real.sin (radians pitch)),
       Real.cos (radians pitch),
       -(Real.sin (radians yaw) * Real.sin (radians pitch))⟩ := by
  have hcr : cross3 (camRight yaw pitch ⟨0, 1, 0⟩) (camFront yaw pitch) =
      ⟨-(Real.cos (radians yaw) * Real.sin (radians pitch)),
       Real.cos (radians pitch),
       -(Real.sin (radians yaw) * Real.sin (radians pitch))⟩ := by
    rw [camRight_eq yaw pitch h, camFront_eq]
    ext <;> simp [cross3, frontRaw]
    linear_combination Real.cos (radians pitch) * Real.sin_sq_add_cos_sq (radians yaw)
  rw [camUp, hcr]
  apply normalize3_of_unit
  simp only [dot3]
  linear_combination (Real.sin (radians pitch)) ^ 2 * Real.sin_sq_add_cos_sq (radians yaw) +
    Real.sin_sq_add_cos_sq (radians pitch)

/-! Field projections of `updateCameraVectors`: only the three basis vectors
change; every other field is untouched. -/

@[simp] theorem updateCameraVectors_Position (c : Camera) :
    (Camera.updateCameraVectors c).Position = c.Position := rfl

@[simp] theorem updateCameraVectors_WorldUp (c : Camera) :
    (Camera.updateCameraVectors c).WorldUp = c.WorldUp := rfl

@[simp] theorem updateCameraVectors_Yaw (c : Camera) :
    (Camera.updateCameraVectors c).Yaw = c.Yaw := rfl

@[simp] theorem updateCameraVectors_Pitch (c : Camera) :
    (Camera.updateCameraVectors c).Pitch = c.Pitch := rfl

@[simp] theorem updateCameraVectors_Zoom (c : Camera) :
    (Camera.updateCameraVectors c).Zoom = c.Zoom := rfl

@[simp] theorem updateCameraVectors_MovementSpeed (c : Camera) :
    (Camera.updateCameraVectors c).MovementSpeed = c.MovementSpeed := rfl

@[simp] theorem updateCameraVectors_MouseSensitivity (c : Camera) :
    (Camera.updateCameraVectors c).MouseSensitivity = c.MouseSensitivity := rfl

@[simp] theorem updateCameraVectors_Front (c : Camera) :
    (Camera.updateCameraVectors c).Front = camFront c.Yaw c.Pitch := rfl

@[simp] theorem updateCameraVectors_Right (c : Camera) :
    (Camera.updateCameraVectors c).Right = camRight c.Yaw c.Pitch c.WorldUp := rfl

@[simp] theorem updateCameraVectors_Up (c : Camera) :
    (Camera.updateCameraVectors c).Up = camUp c.Yaw c.Pitch c.WorldUp := rfl

/-- Master lemma: whenever `WorldUp = (0,1,0)` and the pitch gives a strictly
positive cosine, the recomputed basis is an orthonormal right-handed triple. -/
theorem orthonormalRH_update (c : Camera) (hWU : c.WorldUp = ⟨0, 1, 0⟩)
    (h : 0 < Real.cos (radians c.Pitch)) :
    orthonormalRH (Camera.updateCameraVectors c) := by
  have pyY := Real.sin_sq_add_cos_sq (radians c.Yaw)
  have pyP := Real.sin_sq_add_cos_sq (radians c.Pitch)
  have hF : (Camera.updateCameraVectors c).Front = frontRaw c.Yaw c.Pitch := by
    simp [camFront_eq]
  have hR : (Camera.updateCameraVectors c).Right =
      ⟨-Real.sin (radians c.Yaw), 0, Real.cos (radians c.Yaw)⟩ := by
    simp [hWU, camRight_eq c.Yaw c.Pitch h]
  have hU : (Camera.updateCameraVectors c).Up =
      ⟨-(Real.cos (radians c.Yaw) * Real.sin (radians c.Pitch)),
       Real.cos (radians c.Pitch),
       -(Real.sin (radians c.Yaw) * Real.sin (radians c.Pitch))⟩ := by
    simp [hWU, camUp_eq c.Yaw c.Pitch h]
  rw [orthonormalRH, hF, hR, hU]
  refine ⟨?_, ?_, ?_, ?_, ?_, ?_, ?_, ?_, ?_⟩
  · simp only [frontRaw, dot3]
    ring
  · simp only [frontRaw, dot3]
    linear_combination (-(Real.cos (radians c.Pitch) * Real.sin (radians c.Pitch))) * pyY
  · simp only [dot3]
    ring
  · exact norm3_eq_one (frontRaw_unit c.Yaw c.Pitch)
  · apply norm3_eq_one
    simp only [dot3]
    linear_combination pyY
  · apply norm3_eq_one
    simp only [dot3]
    linear_combination (Real.sin (radians c.Pitch)) ^ 2 * pyY + pyP
  · ext <;> simp only [frontRaw, cross3]
    · ring
    · linear_combination Real.cos (radians c.Pitch) * pyY
    · ring
  · ext <;> simp only [frontRaw, cross3]
    · linear_combination (-Real.sin (radians c.Yaw)) * pyP
    · ring
    · linear_combination Real.cos (radians c.Yaw) * pyP
  · ext <;> simp only [frontRaw, cross3]
    · ring
    · linear_combination Real.sin (radians c.Pitch) * pyY
    · ring

/-- The two sequential pitch-clamping `if`s land in `[-89, 89]` for every input. -/
theorem clampPitch_bounds (p : ℝ) : -89 ≤ clampPitch p ∧ clampPitch p ≤ 89 := by
  unfold clampPitch
  split_ifs <;> constructor <;> linarith

/-- A single constrained mouse-look call always leaves the pitch in `[-89, 89]`,
whatever the starting pitch and offsets. -/
theorem look_step_pitch (c : Camera) (dx dy : ℝ) :
    -89 ≤ (Camera.ProcessMouseMovement c dx dy true).Pitch ∧
      (Camera.ProcessMouseMovement c dx dy true).Pitch ≤ 89 := by
  have h := clampPitch_bounds (c.Pitch + dy * c.MouseSensitivity)
  simpa [Camera.ProcessMouseMovement] using h

/-- Claim C1: for every yaw in `(-180, 180]` and pitch in `[-89, 89]` (with the
program's world-up `(0,1,0)`), the triple `(Front, Right, Up)` computed by
`updateCameraVectors` is pairwise orthogonal, each vector of unit length, and
satisfies the right-hand-rule cross-product relations; and the same holds
after every operation that changes yaw or pitch (`ProcessMouseMovement` with
`constrainPitch = true` and `Set`), since each fully recomputes the basis. -/
theorem camera_basis_orthonormalRH (c : Camera) (hWU : c.WorldUp = ⟨0, 1, 0⟩)
    (hyl : -180 < c.Yaw) (hyu : c.Yaw ≤ 180)
    (hpl : -89 ≤ c.Pitch) (hpu : c.Pitch ≤ 89) :
    orthonormalRH (Camera.updateCameraVectors c) ∧
    (∀ dx dy : ℝ, orthonormalRH (Camera.ProcessMouseMovement c dx dy true)) ∧
    (∀ p : Vec3, orthonormalRH (Camera.Set c p)) := by
  refine ⟨orthonormalRH_update c hWU (cos_radians_pos hpl hpu), ?_, ?_⟩
  · intro dx dy
    have hb := clampPitch_bounds (c.Pitch + dy * c.MouseSensitivity)
    have hmm : Camera.ProcessMouseMovement c dx dy true =
        Camera.updateCameraVectors
          { c with
            Yaw := c.Yaw + dx * c.MouseSensitivity,
            Pitch := clampPitch (c.Pitch + dy * c.MouseSensitivity) } := by
      simp [Camera.ProcessMouseMovement]
    rw [hmm]
    exact orthonormalRH_update _ hWU (cos_radians_pos hb.1 hb.2)
  · intro p
    exact orthonormalRH_update _ hWU
      (cos_radians_pos (show (-89 : ℝ) ≤ 0 by norm_num) (show (0 : ℝ) ≤ 89 by norm_num))

/-- Witness for C1 at the program's start-up camera `Camera(vec3(0, 0, 5))`. -/
theorem camera_basis_orthonormalRH_witness :
    orthonormalRH (Camera.updateCameraVectors (Camera.init ⟨0, 0, 5⟩)) :=
  (camera_basis_orthonormalRH (Camera.init ⟨0, 0, 5⟩) rfl
    (by norm_num [Camera.init]) (by norm_num [Camera.init])
    (by norm_num [Camera.init]) (by norm_num [Camera.init])).1

/-- Claim C2: `updateCameraVectors` computes
`Front = normalize(cos(rad yaw)·cos(rad pitch), sin(rad pitch), sin(rad yaw)·cos(rad pitch))`,
then `Right = normalize(Front × WorldUp)` (front crossed with world-up, in
that order), then `Up = normalize(Right × Front)`. -/
theorem basis_update_formula (c : Camera) :
    (Camera.updateCameraVectors c).Front =
      normalize3 ⟨Real.cos (radians c.Yaw) * Real.cos (radians c.Pitch),
                  Real.sin (radians c.Pitch),
                  Real.sin (radians c.Yaw) * Real.cos (radians c.Pitch)⟩ ∧
    (Camera.updateCameraVectors c).Right =
      normalize3 (cross3 (Camera.updateCameraVectors c).Front c.WorldUp) ∧
    (Camera.updateCameraVectors c).Up =
      normalize3 (cross3 (Camera.updateCameraVectors c).Right
        (Camera.updateCameraVectors c).Front) :=
  ⟨rfl, rfl, rfl⟩

/-- Radians of the reset yaw `-90` degrees. -/
theorem radians_neg_ninety : radians (-90) = -(Real.pi / 2) := by
  unfold radians
  ring

/-- Radians of the reset pitch `0` degrees. -/
theorem radians_zero : radians 0 = 0 := by
  unfold radians
  ring

/-- The raw front vector at yaw `-90`, pitch `0` is exactly `(0, 0, -1)`. -/
theorem frontRaw_reset : frontRaw (-90) 0 = ⟨0, 0, -1⟩ := by
  ext <;> simp [frontRaw, radians_neg_ninety, radians_zero]

/-- Claim C7: `Camera::Set` sets the position to `p`, resets yaw to `-90` and
pitch to `0`, recomputes the basis, and afterwards `Front = (0, 0, -1)`. -/
theorem reset_camera (c : Camera) (p : Vec3) :
    (Camera.Set c p).Position = p ∧
    (Camera.Set c p).Yaw = -90 ∧
    (Camera.Set c p).Pitch = 0 ∧
    (Camera.Set c p).Front = ⟨0, 0, -1⟩ ∧
    Camera.Set c p =
      Camera.updateCameraVectors { c with Position := ⟨p.x, p.y, p.z⟩, Yaw := -90, Pitch := 0 } := by
  refine ⟨rfl, rfl, rfl, ?_, rfl⟩
  have hfront : (Camera.Set c p).Front = camFront (-90) 0 := rfl
  rw [hfront, camFront_eq, frontRaw_reset]

/-- Claim C5: starting from any pitch in `[-89, 89]`, after any finite
sequence of `ProcessMouseMovement` calls with `constrainPitch = true` —
whatever the magnitudes and signs of the offsets — the pitch still lies in
`[-89, 89]` (each call scales the offsets by the sensitivity, accumulates
them, clamps the pitch and recomputes the basis). -/
theorem pitch_bounded_after_look_seq (c : Camera)
    (hpl : -89 ≤ c.Pitch) (hpu : c.Pitch ≤ 89) (ms : List (ℝ × ℝ)) :
    -89 ≤ (lookSeq c ms).Pitch ∧ (lookSeq c ms).Pitch ≤ 89 := by
  induction ms generalizing c with
  | nil => exact ⟨hpl, hpu⟩
  | cons m t ih =>
      have h := look_step_pitch c m.1 m.2
      exact ih _ h.1 h.2

/-- Witness for C5: the start-up camera (pitch `0`) after one violent look. -/
theorem pitch_bounded_after_look_seq_witness :
    -89 ≤ (lookSeq (Camera.init ⟨0, 0, 5⟩) [(500, 100000)]).Pitch ∧
      (lookSeq (Camera.init ⟨0, 0, 5⟩) [(500, 100000)]).Pitch ≤ 89 :=
  pitch_bounded_after_look_seq (Camera.init ⟨0, 0, 5⟩)
    (by norm_num [Camera.init]) (by norm_num [Camera.init]) [(500, 100000)]

/-- A single scroll call always leaves the field-of-view in `[1, 45]`,
whatever the starting zoom and the offset. -/
theorem scroll_step_zoom (c : Camera) (y : ℝ) :
    1 ≤ (Camera.ProcessMouseScroll c y).Zoom ∧
      (Camera.ProcessMouseScroll c y).Zoom ≤ 45 := by
  simp only [Camera.ProcessMouseScroll]
  split_ifs <;> constructor <;> linarith

/-- The zoom interval `[1, 45]` is preserved by any scroll sequence. -/
theorem zoom_bounded_preserved (c : Camera) (h1 : 1 ≤ c.Zoom) (h2 : c.Zoom ≤ 45)
    (ys : List ℝ) : 1 ≤ (scrollSeq c ys).Zoom ∧ (scrollSeq c ys).Zoom ≤ 45 := by
  induction ys generalizing c with
  | nil => exact ⟨h1, h2⟩
  | cons y t ih =>
      have h := scroll_step_zoom c y
      exact ih _ h.1 h.2

/-- Claim C6: starting from the default field-of-view `45`, after any
non-empty finite sequence of `ProcessMouseScroll` calls with arbitrary
offsets, the field-of-view (`Zoom`) lies in `[1, 45]` (each call decrements
it by the offset, then clamps). -/
theorem zoom_bounded_after_scroll_seq (c : Camera) (hz : c.Zoom = 45)
    (ys : List ℝ) (hne : ys ≠ []) :
    1 ≤ (scrollSeq c ys).Zoom ∧ (scrollSeq c ys).Zoom ≤ 45 := by
  cases ys with
  | nil => exact absurd rfl hne
  | cons y t =>
      have h := scroll_step_zoom c y
      exact zoom_bounded_preserved _ h.1 h.2 t

/-- Witness for C6: the start-up camera (zoom `45`) after one huge scroll. -/
theorem zoom_bounded_after_scroll_seq_witness :
    1 ≤ (scrollSeq (Camera.init ⟨0, 0, 5⟩) [1000]).Zoom ∧
      (scrollSeq (Camera.init ⟨0, 0, 5⟩) [1000]).Zoom ≤ 45 :=
  zoom_bounded_after_scroll_seq (Camera.init ⟨0, 0, 5⟩) rfl [1000] (by simp)

/-- Claim C8: `ProcessKeyboard` translates the position by exactly
`MovementSpeed * deltaTime` along `Front` (positive for forward, negative for
backward) or along `Right` (positive for right, negative for left), for every
real `deltaTime` with no clamping of the result, and changes nothing else. -/
theorem keyboard_move (c : Camera) (dt : ℝ) :
    (Camera.ProcessKeyboard c .FORWARD dt).Position =
      c.Position + (c.MovementSpeed * dt) • c.Front ∧
    (Camera.ProcessKeyboard c .BACKWARD dt).Position =
      c.Position - (c.MovementSpeed * dt) • c.Front ∧
    (Camera.ProcessKeyboard c .LEFT dt).Position =
      c.Position - (c.MovementSpeed * dt) • c.Right ∧
    (Camera.ProcessKeyboard c .RIGHT dt).Position =
      c.Position + (c.MovementSpeed * dt) • c.Right ∧
    (∀ d : Camera_Movement,
      (Camera.ProcessKeyboard c d dt).Front = c.Front ∧
      (Camera.ProcessKeyboard c d dt).Right = c.Right ∧
      (Camera.ProcessKeyboard c d dt).Up = c.Up ∧
      (Camera.ProcessKeyboard c d dt).Yaw = c.Yaw ∧
      (Camera.ProcessKeyboard c d dt).Pitch = c.Pitch ∧
      (Camera.ProcessKeyboard c d dt).Zoom = c.Zoom) := by
  refine ⟨rfl, rfl, rfl, rfl, ?_⟩
  intro d
  cases d <;> exact ⟨rfl, rfl, rfl, rfl, rfl, rfl⟩

/-- Claim C4: the per-frame light position is
`(R·cos t, 2·cos t, R·sin t)` with `R = 5` (elliptical orbit, y-amplitude 2);
at `t = 0` it is `(5, 2, 0)` and at `t = π/2` it is `(0, 0, 5)`. -/
theorem light_orbit (t : ℝ) :
    lightPosAt t = ⟨5 * Real.cos t, 2 * Real.cos t, 5 * Real.sin t⟩ ∧
    lightPosAt 0 = ⟨5, 2, 0⟩ ∧
    lightPosAt (Real.pi / 2) = ⟨0, 0, 5⟩ := by
  refine ⟨?_, ?_, ?_⟩
  · ext <;> simp [lightPosAt] <;> ring
  · ext <;> simp [lightPosAt]
  · ext <;> simp [lightPosAt]

/-- Claim C9: both lit fragment shaders compute
`ambient = ambientStrength × lightColor` (strength `0.15` for the
uniform-color shader, `0.2` for the per-vertex-color shader),
`diffuse = max(dot(normalize(normal), normalize(lightPos − fragPos)), 0) × lightColor`,
and output `(ambient + diffuse) × objectColor` with alpha `1`; each is a pure
function of its per-fragment inputs. -/
theorem fragment_shading (N F lp lc oc : Vec3) :
    f_basic_lighting N F lp lc oc = phongSpecFrag 0.15 N F lp lc oc ∧
    f_humor_drill N F lp lc oc = phongSpecFrag 0.2 N F lp lc oc ∧
    (f_basic_lighting N F lp lc oc).w = 1 ∧
    (f_humor_drill N F lp lc oc).w = 1 :=
  ⟨rfl, rfl, rfl, rfl⟩

/-- Length of a `flatMap` whose pieces all have the same length. -/
theorem length_flatMap_const {α β : Type} (l : List α) (f : α → List β) (k : ℕ)
    (h : ∀ a, (f a).length = k) : (l.flatMap f).length = l.length * k := by
  induction l with
  | nil => simp
  | cons a t ih =>
      simp only [List.flatMap_cons, List.length_append, List.length_cons, ih, h]
      ring

/-- The vertex loop emits one vertex per grid node. -/
theorem sphereVertices_length (Ysegs Xsegs : ℕ) :
    (sphereVertices Ysegs Xsegs).length = (Ysegs + 1) * (Xsegs + 1) := by
  rw [sphereVertices, length_flatMap_const _ _ (Xsegs + 1) (fun y => by simp),
    List.length_range]

/-- Each quad contributes exactly six index entries. -/
theorem quadIndices_length (Xsegs i j : ℕ) : (quadIndices Xsegs i j).length = 6 := rfl

/-- The index loop emits six entries per grid quad. -/
theorem sphereIndices_length (Ysegs Xsegs : ℕ) :
    (sphereIndices Ysegs Xsegs).length = Ysegs * (Xsegs * 6) := by
  rw [sphereIndices,
    length_flatMap_const _ _ (Xsegs * 6)
      (fun i => by
        rw [length_flatMap_const _ _ 6 (fun j => quadIndices_length Xsegs i j),
          List.length_range]),
    List.length_range]

/-- Every generated sphere vertex lies on the unit sphere. -/
theorem spherePoint_norm (Ysegs Xsegs y x : ℕ) :
    norm3 (spherePoint Ysegs Xsegs y x) = 1 := by
  apply norm3_eq_one
  simp only [spherePoint, dot3]
  linear_combination
    (Real.sin ((y : ℝ) / (Ysegs : ℝ) * Real.pi)) ^ 2 *
      Real.sin_sq_add_cos_sq ((x : ℝ) / (Xsegs : ℝ) * 2 * Real.pi) +
    Real.sin_sq_add_cos_sq ((y : ℝ) / (Ysegs : ℝ) * Real.pi)

/-- Claim C3: the sphere generator with `Ysegs × Xsegs` segments produces
exactly `(Ysegs+1)·(Xsegs+1)` vertices and `6·Ysegs·Xsegs` index entries,
every generated vertex position has norm `1`, and for `2 × 2` segments it
produces `9` vertices and `24` indices. -/
theorem sphere_mesh_spec (Ysegs Xsegs : ℕ) :
    (sphereVertices Ysegs Xsegs).length = (Ysegs + 1) * (Xsegs + 1) ∧
    (sphereIndices Ysegs Xsegs).length = 6 * (Ysegs * Xsegs) ∧
    (∀ v ∈ sphereVertices Ysegs Xsegs, norm3 v = 1) ∧
    (sphereVertices 2 2).length = 9 ∧
    (sphereIndices 2 2).length = 24 := by
  refine ⟨sphereVertices_length Ysegs Xsegs, ?_, ?_, ?_, ?_⟩
  · rw [sphereIndices_length]
    ring
  · intro v hv
    simp only [sphereVertices, List.mem_flatMap, List.mem_map, List.mem_range] at hv
    obtain ⟨y, -, x, -, rfl⟩ := hv
    exact spherePoint_norm Ysegs Xsegs y x
  · rw [sphereVertices_length]
  · rw [sphereIndices_length]

/-- Witness for C3: the first generated vertex of the `2 × 2` sphere has
norm `1`, via membership in the generated vertex list. -/
theorem sphere_mesh_spec_witness : norm3 (spherePoint 2 2 0 0) = 1 :=
  (sphere_mesh_spec 2 2).2.2.1 (spherePoint 2 2 0 0)
    (List.mem_flatMap.mpr
      ⟨0, List.mem_range.mpr (by norm_num),
        List.mem_map.mpr ⟨0, List.mem_range.mpr (by norm_num), rfl⟩⟩)

/-- Claim C10: every index entry emitted by the sphere index loop is smaller
than the number `(Xsegs+1)·(Ysegs+1)` of generated vertices (so indexed
access into the vertex array is in bounds), and the count
`X_SEGMENTS · Y_SEGMENTS · 6` passed to `glDrawElements` equals the number of
generated index entries, in particular at the program's `70 × 70`. -/
theorem sphere_indices_in_bounds (Ysegs Xsegs : ℕ) :
    (∀ k ∈ sphereIndices Ysegs Xsegs, k < (Xsegs + 1) * (Ysegs + 1)) ∧
    (sphereIndices Ysegs Xsegs).length = Xsegs * Ysegs * 6 ∧
    (sphereIndices 70 70).length = 70 * 70 * 6 := by
  refine ⟨?_, ?_, ?_⟩
  · intro k hk
    simp only [sphereIndices, quadIndices, List.mem_flatMap, List.mem_range,
      List.mem_cons, List.not_mem_nil, or_false] at hk
    obtain ⟨i, hi, j, hj, hk⟩ := hk
    have hA : i * (Xsegs + 1) ≤ Ysegs * (Xsegs + 1) :=
      mul_le_mul_right' (le_of_lt hi) (Xsegs + 1)
    have hB : (i + 1) * (Xsegs + 1) ≤ Ysegs * (Xsegs + 1) :=
      mul_le_mul_right' hi (Xsegs + 1)
    have hC : (Xsegs + 1) * (Ysegs + 1) = Ysegs * (Xsegs + 1) + Xsegs + 1 := by ring
    rcases hk with rfl | rfl | rfl | rfl | rfl | rfl <;> rw [hC] <;> linarith
  · rw [sphereIndices_length]
    ring
  · rw [sphereIndices_length]

/-- Witness for C10: index `0` of the `2 × 2` sphere is in bounds, and its
`24` index entries match the draw count `2 · 2 · 6`. -/
theorem sphere_indices_in_bounds_witness :
    (0 : ℕ) < (2 + 1) * (2 + 1) ∧ (sphereIndices 2 2).length = 2 * 2 * 6 :=
  ⟨(sphere_indices_in_bounds 2 2).1 0 (by decide), (sphere_indices_in_bounds 2 2).2.1⟩

end
